import Mathlib

/-!
Verification of the snaptap job-orchestration core (src/app.py, src/helper.py).

Shallow embedding conventions:
* a Python job dict is a `Job` record; the job table `_jobs` is an
  insertion-ordered association list (`Store`);
* `uuid4()` and `datetime.utcnow()` are made explicit inputs of the
  operations that call them;
* Python floats are exact rationals; Python statuses stay the raw strings
  the code writes;
* the external fetch service (yt-dlp) is an input: a list of per-url
  outcomes, each with the progress events it emits;
* a raised exception is the `.error` branch of `Except String`.
-/

namespace Snaptap

/-- Per-URL progress record: one dict of `job["items"]` in `app.py`.
`percent` is exact rational arithmetic in place of a Python number. -/
structure Item where
  url : String
  status : String
  percent : ℚ
  filename : Option String := none
deriving DecidableEq

/-- One job record, with the exact fields `_new_job` creates. `created_ts`
is the POSIX timestamp, `created_at`/`updated_at` the ISO strings. -/
structure Job where
  id : String
  status : String
  format : String
  urls : List String
  items : List Item
  files : List String
  error : Option String
  created_at : String
  updated_at : String
  created_ts : ℚ
deriving DecidableEq

/-- Results (and raised exceptions) are compared in theorems, so `Except`
gets decidable equality. -/
instance {e a : Type} [DecidableEq e] [DecidableEq a] : DecidableEq (Except e a) := fun x y =>
  match x, y with
  | Except.ok v, Except.ok w => decidable_of_iff (v = w) (by simp)
  | Except.error v, Except.error w => decidable_of_iff (v = w) (by simp)
  | Except.ok _, Except.error _ => isFalse (by simp)
  | Except.error _, Except.ok _ => isFalse (by simp)

/-- The job table `_jobs`: an insertion-ordered association list standing
for the Python dict. -/
abbrev Store := List (String × Job)

/-- `_jobs.get(job_id)`. -/
def storeGet (s : Store) (job_id : String) : Option Job :=
  (List.find? (fun p => p.1 == job_id) s).map Prod.snd

/-- `_jobs[job_id] = job`: overwrite in place when the key exists,
append otherwise (Python dicts keep insertion order). -/
def storeInsert (s : Store) (job_id : String) (j : Job) : Store :=
  if s.any (fun p => p.1 == job_id) then
    s.map (fun p => if p.1 == job_id then (job_id, j) else p)
  else s ++ [(job_id, j)]

/-- `_jobs.pop(job_id, None)`. -/
def storePop (s : Store) (job_id : String) : Store :=
  s.filter (fun p => p.1 != job_id)

/-- The job dict literal `_new_job` builds (app.py:63-74). -/
def mkJob (job_id : String) (urls : List String) (fmt : String)
    (now_iso : String) (now_ts : ℚ) : Job :=
  { id := job_id
    status := "queued"
    format := fmt
    urls := urls
    items := urls.map (fun url => { url := url, status := "queued", percent := 0 })
    files := []
    error := none
    created_at := now_iso ++ "Z"
    updated_at := now_iso ++ "Z"
    created_ts := now_ts }

/-- `_new_job` (app.py:60-77): builds the fresh job record and inserts it.
The uuid hex and the two renditions of `utcnow()` are explicit inputs.
Returns the updated store and the returned id. -/
def new_job (s : Store) (job_id : String) (urls : List String) (fmt : String)
    (now_iso : String) (now_ts : ℚ) : Store × String :=
  (storeInsert s job_id (mkJob job_id urls fmt now_iso now_ts), job_id)

/-- The keyword arguments `_update_job` is actually called with: `status`,
`files`, `error` (app.py:112-122). `none` means the key is absent. -/
structure Updates where
  status : Option String := none
  files : Option (List String) := none
  error : Option (Option String) := none
deriving DecidableEq

/-- `job.update(updates)` followed by the `updated_at` refresh (app.py:85-86). -/
def applyUpdates (j : Job) (u : Updates) (now_iso : String) : Job :=
  { j with
    status := u.status.getD j.status
    files := u.files.getD j.files
    error := u.error.getD j.error
    updated_at := now_iso ++ "Z" }

/-- `_update_job` (app.py:80-86): silently a no-op when the job is gone,
otherwise applies the updates unconditionally, in one critical section. -/
def update_job (s : Store) (job_id : String) (u : Updates) (now_iso : String) : Store :=
  match storeGet s job_id with
  | none => s
  | some job => storeInsert s job_id (applyUpdates job u now_iso)

/-- The keys of a hook `info` dict that `progress_hook` inspects; `extra`
records whether the dict carries any further keys (raw yt-dlp progress
dicts always do), so that Python truthiness of the dict is definable. -/
structure HookInfo where
  filename : Option String := none
  percent : Option ℚ := none
  error : Option String := none
  extra : Bool := false
deriving DecidableEq

/-- Python truthiness of the optional `info` dict: `None` and the empty
dict are falsy. -/
def hookInfoTruthy : Option HookInfo → Bool
  | none => false
  | some h => h.filename.isSome || h.percent.isSome || h.error.isSome || h.extra

/-- Python list indexing: `0 ≤ i < n` direct, `-n ≤ i < 0` from the end,
otherwise IndexError (`none`). -/
def pyIndex (n : ℕ) (i : ℤ) : Option ℕ :=
  if 0 ≤ i ∧ i < (n : ℤ) then some i.toNat
  else if -(n : ℤ) ≤ i ∧ i < 0 then some ((n : ℤ) + i).toNat
  else none

/-- In-range list update used by the item writes. -/
def modifyItem (items : List Item) (k : ℕ) (f : Item → Item) : List Item :=
  match items[k]? with
  | none => items
  | some it => items.set k (f it)

/-- Splits a character list on `/`, keeping empty segments. -/
def splitSlash : List Char → List (List Char)
  | [] => [[]]
  | c :: rest =>
    let r := splitSlash rest
    if c = '/' then [] :: r
    else
      match r with
      | [] => [[c]]
      | h :: t => (c :: h) :: t

/-- `Path(p).name`: the final path component. -/
def pathName (p : String) : String :=
  String.mk ((splitSlash p.toList).getLastD p.toList)

/-- The two unguarded writes of `progress_hook` (app.py:106-110): the
`filename` write, then the `percent` write, each indexing
`items[item_index]` with full Python semantics. -/
def writeInfo (items : List Item) (item_index : ℤ) (i : HookInfo) :
    Except String (List Item) :=
  let step1 : Except String (List Item) :=
    match i.filename with
    | some fn =>
      match pyIndex items.length item_index with
      | some k =>
        Except.ok (modifyItem items k (fun it => { it with filename := some (pathName fn) }))
      | none => Except.error "IndexError"
    | none => Except.ok items
  match step1 with
  | Except.error e => Except.error e
  | Except.ok items1 =>
    match i.percent with
    | some pc =>
      match pyIndex items1.length item_index with
      | some k => Except.ok (modifyItem items1 k (fun it => { it with percent := pc }))
      | none => Except.error "IndexError"
    | none => Except.ok items1

/-- `progress_hook` (app.py:98-110). The bounds check guards only the
status write; when the `info` dict is truthy, the `filename`/`percent`
writes index `items[item_index]` unguarded. A raised IndexError leaves
the store unmodified, which matches the source: the guarded status write
succeeds only when the index is such that the later writes cannot raise. -/
def progress_hook (s : Store) (job_id : String) (item_index : ℤ) (status : String)
    (info : Option HookInfo) : Except String Store :=
  match storeGet s job_id with
  | none => Except.ok s
  | some job =>
    let items0 := job.items
    let items1 :=
      if 0 ≤ item_index ∧ item_index < (items0.length : ℤ) then
        modifyItem items0 item_index.toNat (fun it => { it with status := status })
      else items0
    if hookInfoTruthy info then
      match info with
      | none => Except.ok (storeInsert s job_id { job with items := items1 })
      | some i =>
        match writeInfo items1 item_index i with
        | Except.ok items2 => Except.ok (storeInsert s job_id { job with items := items2 })
        | Except.error e => Except.error e
    else Except.ok (storeInsert s job_id { job with items := items1 })

/-- One yt-dlp progress dict `d`: the keys the code reads. Byte counts are
rationals; `none` means the key is absent. -/
structure ProgressData where
  status : String
  total_bytes : Option ℚ := none
  total_bytes_estimate : Option ℚ := none
  downloaded_bytes : Option ℚ := none
  filename : Option String := none
deriving DecidableEq

/-- Python truthiness of an optional number: `None` and `0` are falsy. -/
def pyTruthy : Option ℚ → Bool
  | none => false
  | some q => q != 0

/-- Python `a or b` on optional numbers: `b` whenever `a` is falsy. -/
def pyOr (a b : Option ℚ) : Option ℚ :=
  if pyTruthy a then a else b

/-- Kernel-executable division on ℚ (the library's `/` is irreducible;
`qDiv_eq` proves it is the same function). -/
def qDiv (a b : ℚ) : ℚ := Rat.divInt (a.num * (b.den : ℤ)) ((a.den : ℤ) * b.num)

/-- Kernel-executable multiplication on ℚ (see `qMul_eq`). -/
def qMul (a b : ℚ) : ℚ := Rat.divInt (a.num * b.num) ((a.den : ℤ) * b.den)

/-- Floor of a rational in kernel-executable form (see `ratFloor_eq`). -/
def ratFloor (q : ℚ) : ℤ := q.num / (q.den : ℤ)

/-- Python `round(x, 2)` (round half to even) over exact rationals. With
`s = 100x`, `f = ⌊s⌋` and fractional remainder `rn/den`, the half-point
comparisons are the integer comparisons of `2·rn` against `den`. -/
def pyRound2 (q : ℚ) : ℚ :=
  let s := qMul q 100
  let f : ℤ := ratFloor s
  let rn : ℤ := s.num - f * (s.den : ℤ)
  let n : ℤ :=
    if 2 * rn < (s.den : ℤ) then f
    else if (s.den : ℤ) < 2 * rn then f + 1
    else if f % 2 = 0 then f else f + 1
  Rat.divInt n 100

/-- Round half to even on the floor/fraction level: the specification
`pyRound2` is proved against (`pyRound2_eq_roundHE`). -/
def roundHE (s : ℚ) : ℤ :=
  if Int.fract s < 1 / 2 then ⌊s⌋
  else if 1 / 2 < Int.fract s then ⌊s⌋ + 1
  else if ⌊s⌋ % 2 = 0 then ⌊s⌋ else ⌊s⌋ + 1

/-- `_percent_from_progress` (helper.py:61-66): `total_bytes or
total_bytes_estimate`, then `downloaded/total × 100` rounded to two
decimals, only when both quantities are truthy. -/
def percent_from_progress (d : ProgressData) : Option ℚ :=
  let total := pyOr d.total_bytes d.total_bytes_estimate
  let downloaded := d.downloaded_bytes
  if pyTruthy total && pyTruthy downloaded then
    some (pyRound2 (qMul (qDiv (downloaded.getD 0) (total.getD 0)) 100))
  else none

/-- The `_progress` wrapper (helper.py:117-123): forwards only
`downloading`/`finished` events, passing `info = dict(d)` extended with the
computed percent when there is one. `extra := true` because a raw progress
dict always carries further keys (at least `status`). -/
def progressWrapper (s : Store) (job_id : String) (item_index : ℤ) (d : ProgressData) :
    Except String Store :=
  if d.status == "downloading" || d.status == "finished" then
    progress_hook s job_id item_index d.status
      (some { filename := d.filename
              percent := percent_from_progress d
              error := none
              extra := true })
  else Except.ok s

/-- External behaviour of one `ydl.extract_info` call (helper.py:140-157):
the progress events yt-dlp emits, then either a raised exception (`.error`)
or normal return together with the newest new output file, when the
glob-difference finds one. -/
structure UrlFetch where
  events : List ProgressData
  result : Except String (Option String)

/-- Folds one url's progress events into the store. An exception raised by
the hook propagates out of `extract_info`; the store keeps the mutations
already applied. -/
def runEvents (job_id : String) (item_index : ℤ) :
    Store → List ProgressData → Store × Option String
  | s, [] => (s, none)
  | s, d :: rest =>
    match progressWrapper s job_id item_index d with
    | Except.ok s1 => runEvents job_id item_index s1 rest
    | Except.error e => (s, some e)

/-- One iteration of the download loop (helper.py:116-157) for the item at
`item_index`: run the events, then either the error hook plus re-raise, or
the completion hook (with filename and percent 100 when a new file was
found, percent 100 alone otherwise). Returns the store, and the produced
file to append or the raised exception. -/
def runOneUrl (s : Store) (job_id : String) (item_index : ℤ) (f : UrlFetch) :
    Store × Except String (Option String) :=
  match runEvents job_id item_index s f.events with
  | (s1, some e) =>
    match progress_hook s1 job_id item_index "error" (some { error := some e }) with
    | Except.ok s2 => (s2, Except.error e)
    | Except.error e2 => (s1, Except.error e2)
  | (s1, none) =>
    match f.result with
    | Except.error msg =>
      match progress_hook s1 job_id item_index "error" (some { error := some msg }) with
      | Except.ok s2 => (s2, Except.error msg)
      | Except.error e2 => (s1, Except.error e2)
    | Except.ok (some newest) =>
      match progress_hook s1 job_id item_index "completed"
          (some { filename := some newest, percent := some 100 }) with
      | Except.ok s2 => (s2, Except.ok (some newest))
      | Except.error e2 => (s1, Except.error e2)
    | Except.ok none =>
      match progress_hook s1 job_id item_index "completed" (some { percent := some 100 }) with
      | Except.ok s2 => (s2, Except.ok none)
      | Except.error e2 => (s1, Except.error e2)

/-- The `for index, video_url in enumerate(urls)` loop of `download_media`,
accumulating `output_files`; stops at the first raised exception, which
propagates to the caller while the store keeps all mutations so far. -/
def runUrls (job_id : String) : Store → ℕ → List UrlFetch → List String →
    Store × Except String (List String)
  | s, _, [], acc => (s, Except.ok acc)
  | s, idx, f :: rest, acc =>
    match runOneUrl s job_id (idx : ℤ) f with
    | (s1, Except.error e) => (s1, Except.error e)
    | (s1, Except.ok (some nf)) => runUrls job_id s1 (idx + 1) rest (acc ++ [nf])
    | (s1, Except.ok none) => runUrls job_id s1 (idx + 1) rest acc

/-- `_download_job` (app.py:89-122): mark the job `running`, drive
`download_media` (one `UrlFetch` outcome per url of the job), then record
`finished` plus the produced files, or `error` plus the exception message.
`now_iso` stands for the `utcnow()` readings of the update calls. -/
def download_job (s : Store) (job_id : String) (fetches : List UrlFetch)
    (now_iso : String) : Store :=
  match storeGet s job_id with
  | none => s
  | some _ =>
    let s1 := update_job s job_id { status := some "running" } now_iso
    match runUrls job_id s1 0 fetches [] with
    | (s2, Except.ok files) =>
      update_job s2 job_id { status := some "finished", files := some files } now_iso
    | (s2, Except.error e) =>
      update_job s2 job_id { status := some "error", error := some (some e) } now_iso

/-- A parsed URL as `urllib.parse.urlparse` splits it; the query is kept as
its ordered key/value pairs (what `parse_qs` groups; blank values are
dropped by `parse_qs`'s default and modelled by `firstQueryValue`). -/
structure PyUrl where
  scheme : String
  netloc : String
  path : String
  params : String
  query : List (String × String)
  fragment : String
deriving DecidableEq

/-- `"youtube" in netloc or "youtu.be" in netloc` (substring containment). -/
def isYoutubeNetloc (netloc : String) : Bool :=
  decide (List.IsInfix "youtube".toList netloc.toList)
    || decide (List.IsInfix "youtu.be".toList netloc.toList)

/-- `parse_qs(query).get(key, [None])[0]`: first non-blank value of the key
(`parse_qs` drops blank values by default). -/
def firstQueryValue (query : List (String × String)) (key : String) : Option String :=
  ((query.filter (fun p => p.2 != "")).find? (fun p => p.1 == key)).map Prod.snd

/-- `_normalize_url` (helper.py:47-58): non-youtube hosts pass through; on a
youtube host, a truthy `v` query parameter rebuilds the url as
`(scheme, netloc, path, "", "v=<id>", "")`; otherwise the url passes
through unchanged. -/
def normalize_url (u : PyUrl) : PyUrl :=
  if !isYoutubeNetloc u.netloc then u
  else
    match firstQueryValue u.query "v" with
    | some video_id =>
      { scheme := u.scheme
        netloc := u.netloc
        path := u.path
        params := ""
        query := [("v", video_id)]
        fragment := "" }
    | none => u

/-- The store half of `_cleanup_old_jobs` (app.py:125-134): under the lock,
pop every job whose `created_ts` is truthy and predates the cutoff,
collecting the popped ids in scan order. Returns the surviving store and
the collected ids. -/
def cleanup_old_jobs_store (s : Store) (cutoff_ts : ℚ) : Store × List String :=
  let evict : String × Job → Bool := fun p =>
    pyTruthy (some p.2.created_ts) && decide (p.2.created_ts < cutoff_ts)
  (s.filter (fun p => !evict p), (s.filter evict).map Prod.fst)

/-- What the filesystem holds for one evicted job when the deletion phase
reaches it: whether its output directory exists, the files inside it, and
whether its cached zip exists. -/
structure JobArtifacts where
  job_id : String
  dirExists : Bool
  children : List String
  zipExists : Bool
deriving DecidableEq

/-- One attempted filesystem deletion of the cleanup phase. -/
inductive FsOp where
  | unlinkChild (job_id : String) (child : String)
  | rmdir (job_id : String)
  | unlinkZip (job_id : String)
deriving DecidableEq

/-- One fallible filesystem primitive: succeeds or raises OSError,
as the oracle at this operation's position dictates. -/
def fsAttempt (oracle : List Bool) (n : ℕ) : Except String Unit :=
  if oracle.getD n true then Except.ok () else Except.error "OSError"

/-- `try: op() except OSError: pass` — the failure is swallowed. -/
def swallow (r : Except String Unit) : Except String Unit :=
  match r with
  | Except.ok _ => Except.ok ()
  | Except.error _ => Except.ok ()

/-- One turn of `for child in path.glob("*")` (app.py:137-141): attempt
the unlink, swallow any OSError, move to the next oracle position. -/
def childStep (oracle : List Bool) (job_id : String) (acc : List FsOp × ℕ)
    (child : String) : List FsOp × ℕ :=
  match swallow (fsAttempt oracle acc.2) with
  | Except.ok _ => (acc.1 ++ [FsOp.unlinkChild job_id child], acc.2 + 1)
  | Except.error _ => (acc.1 ++ [FsOp.unlinkChild job_id child], acc.2 + 1)

/-- The deletion phase of `_cleanup_old_jobs` for one evicted job
(app.py:135-151): unlink each child of the output directory, remove the
directory, then unlink the cached zip, each attempt wrapped in
`try/except OSError: pass`. Threads the oracle position and records every
attempted operation; the `Except` layer carries any exception that would
escape the sweep. -/
def deleteJobArtifacts (oracle : List Bool) (a : JobArtifacts) (n : ℕ) :
    Except String (List FsOp × ℕ) :=
  let dirPart : Except String (List FsOp × ℕ) :=
    if a.dirExists then
      let folded := a.children.foldl (childStep oracle a.job_id) ([], n)
      match swallow (fsAttempt oracle folded.2) with
      | Except.ok _ => Except.ok (folded.1 ++ [FsOp.rmdir a.job_id], folded.2 + 1)
      | Except.error e => Except.error e
    else Except.ok ([], n)
  match dirPart with
  | Except.error e => Except.error e
  | Except.ok (ops1, n1) =>
    if a.zipExists then
      match swallow (fsAttempt oracle n1) with
      | Except.ok _ => Except.ok (ops1 ++ [FsOp.unlinkZip a.job_id], n1 + 1)
      | Except.error e => Except.error e
    else Except.ok (ops1, n1)

/-- The whole deletion phase (app.py:135-151), over every evicted job in
collection order. -/
def deleteArtifacts (oracle : List Bool) : List JobArtifacts → ℕ →
    Except String (List FsOp × ℕ)
  | [], n => Except.ok ([], n)
  | a :: rest, n =>
    match deleteJobArtifacts oracle a n with
    | Except.error e => Except.error e
    | Except.ok (ops, n1) =>
      match deleteArtifacts oracle rest n1 with
      | Except.error e => Except.error e
      | Except.ok (opsRest, n2) => Except.ok (ops ++ opsRest, n2)

/-- The per-job order the claim describes: children, directory, zip, with
the exists-guards of the source. -/
def expectedOpsFor (a : JobArtifacts) : List FsOp :=
  (if a.dirExists then
      a.children.map (FsOp.unlinkChild a.job_id) ++ [FsOp.rmdir a.job_id]
    else [])
    ++ (if a.zipExists then [FsOp.unlinkZip a.job_id] else [])

/-- The response dict `api_status` builds (app.py:195-204). -/
structure StatusResponse where
  id : String
  status : String
  format : String
  created_at : String
  updated_at : String
  items : List Item
  error : Option String
  files : List String
deriving DecidableEq

/-- Field extraction of `api_status` from one job state. -/
def statusResponseOf (j : Job) : StatusResponse :=
  { id := j.id
    status := j.status
    format := j.format
    created_at := j.created_at
    updated_at := j.updated_at
    items := j.items
    error := j.error
    files := j.files.map pathName }

/-- `api_status` reads the eight response fields one by one after releasing
the lock (app.py:190-204), so each field read sees the job as of some point
in time. `trace n` is the job's state after `n` concurrent updates;
`sched k` says how many updates had completed when field `k` (in source
order: id, status, format, created_at, updated_at, items, error, files) was
read. A monotone `sched` is an admissible interleaving. -/
def api_status_read (trace : ℕ → Job) (sched : Fin 8 → ℕ) : StatusResponse :=
  { id := (trace (sched 0)).id
    status := (trace (sched 1)).status
    format := (trace (sched 2)).format
    created_at := (trace (sched 3)).created_at
    updated_at := (trace (sched 4)).updated_at
    items := (trace (sched 5)).items
    error := (trace (sched 6)).error
    files := (trace (sched 7)).files.map pathName }

/-- One row of the `/api/recent` payload (app.py:214-223). -/
structure RecentEntry where
  id : String
  status : String
  format : String
  created_at : String
  url_count : ℕ
deriving DecidableEq

/-- The summary row built for one job. -/
def recentEntryOf (j : Job) : RecentEntry :=
  { id := j.id
    status := j.status
    format := j.format
    created_at := j.created_at
    url_count := j.urls.length }

/-- The descending `created_at` order `recent.sort(key=..., reverse=True)`
establishes. -/
def recentBefore (a b : Job) : Prop := b.created_at ≤ a.created_at

instance : DecidableRel recentBefore := fun a b =>
  inferInstanceAs (Decidable (b.created_at ≤ a.created_at))

instance : IsTotal Job recentBefore :=
  ⟨fun a b => le_total b.created_at a.created_at⟩

instance : IsTrans Job recentBefore :=
  ⟨fun _ _ _ h1 h2 => le_trans h2 h1⟩

/-- `api_recent` (app.py:208-224): snapshot the jobs, sort by `created_at`
descending (a stable sort, rendered by `insertionSort`), truncate to the
limit, project to summary rows. The limit is the `MAX_RECENT` tunable. -/
def api_recent (s : Store) (max_recent : ℕ) : List RecentEntry :=
  let recent := s.map Prod.snd
  let sorted := recent.insertionSort recentBefore
  (sorted.take max_recent).map recentEntryOf

/-- The writes `progress_hook` performs once the index has resolved to a
plain position `k` (app.py:106-110): the filename write, then the percent
write; the guarded status write is not among them. -/
def infoWrites (items : List Item) (k : ℕ) (i : HookInfo) : List Item :=
  let items1 :=
    match i.filename with
    | some fn => modifyItem items k (fun it => { it with filename := some (pathName fn) })
    | none => items
  match i.percent with
  | some pc => modifyItem items1 k (fun it => { it with percent := pc })
  | none => items1

/-- The items/urls correspondence of the data model: one item per url, in
url order (captures both equal length and matching order). -/
def JobWF (j : Job) : Prop := j.items.map Item.url = j.urls

/-- Every job of the table satisfies `JobWF`. -/
def StoreWF (s : Store) : Prop := ∀ p ∈ s, JobWF p.2

/-- The store mutations the program performs over a job's lifetime:
submissions, the Runner's field updates, progress callbacks, Cleaner
sweeps. -/
inductive StoreOp where
  | create (job_id : String) (urls : List String) (fmt : String)
      (now_iso : String) (now_ts : ℚ)
  | update (job_id : String) (u : Updates) (now_iso : String)
  | progress (job_id : String) (item_index : ℤ) (status : String) (info : Option HookInfo)
  | sweep (cutoff_ts : ℚ)

/-- Effect of one operation on the table; a progress callback that raises
leaves the table as it was (the raising paths perform no prior write). -/
def stepOp (s : Store) : StoreOp → Store
  | StoreOp.create job_id urls fmt now_iso now_ts => (new_job s job_id urls fmt now_iso now_ts).1
  | StoreOp.update job_id u now_iso => update_job s job_id u now_iso
  | StoreOp.progress job_id item_index status info =>
    match progress_hook s job_id item_index status info with
    | Except.ok s1 => s1
    | Except.error _ => s
  | StoreOp.sweep cutoff_ts => (cleanup_old_jobs_store s cutoff_ts).1

/-- A whole history of store operations. -/
def runOps (s : Store) (ops : List StoreOp) : Store := ops.foldl stepOp s

/-- How many deletion attempts the sweep makes for one evicted job. -/
def attemptCount (a : JobArtifacts) : ℕ :=
  (if a.dirExists then a.children.length + 1 else 0) + (if a.zipExists then 1 else 0)

/-! ### Concrete fixtures used by the scenario theorems and witnesses -/

/-- A one-url job mid-download. -/
def demoJob : Job :=
  { id := "d1"
    status := "running"
    format := "mp3"
    urls := ["u"]
    items := [{ url := "u", status := "downloading", percent := 50 }]
    files := []
    error := none
    created_at := "T0Z"
    updated_at := "T1Z"
    created_ts := 1 }

/-- A one-url job in terminal `finished` state. -/
def finishedJob : Job :=
  { demoJob with
    id := "f1"
    status := "finished"
    items := [{ url := "u", status := "completed", percent := 100, filename := some "u.mp3" }]
    files := ["/d/u.mp3"] }

/-- Store holding a fresh two-url job, as created by a submission of
urls A and B. -/
def twoUrlStore : Store := (new_job [] "job-ab" ["A", "B"] "mp3" "T0" 1).1

/-- External outcomes for the two urls: A succeeds producing `/d/A.mp3`,
B raises `boom`. -/
def twoUrlFetches : List UrlFetch :=
  [{ events := [], result := Except.ok (some "/d/A.mp3") },
   { events := [], result := Except.error "boom" }]

/-- The job record after the Runner processed the two-url scenario. -/
def twoUrlFinal : Option Job :=
  storeGet (download_job twoUrlStore "job-ab" twoUrlFetches "T1") "job-ab"

/-- Job state before the concurrent terminal update of the torn-read
scenario. -/
def runningJob : Job := demoJob

/-- The same job after `_update_job(status="error", error="boom")`. -/
def erroredJob : Job :=
  applyUpdates runningJob { status := some "error", error := some (some "boom") } "T2"

/-- State history of the torn-read scenario: one update happens. -/
def tornTrace : ℕ → Job := fun k => if k = 0 then runningJob else erroredJob

/-- Field-read schedule: the first five field reads happen before the
update, the last three after; the schedule is monotone, hence an
admissible interleaving of the reader with one writer. -/
def tornSched : Fin 8 → ℕ := fun k => if (k : ℕ) ≤ 4 then 0 else 1

/-- Store holding a fresh one-url job used by the percent scenario. -/
def percentStore : Store := (new_job [] "p1" ["u"] "mp3" "T0" 1).1

/-- A progress dict whose size estimate undershoots the bytes already
downloaded. -/
def overshootEvent : ProgressData :=
  { status := "downloading", total_bytes_estimate := some 2, downloaded_bytes := some 3 }

/-- The youtu.be short form of a video, bare. -/
def shortUrlBare : PyUrl :=
  { scheme := "https", netloc := "youtu.be", path := "/abc123", params := ""
    query := [], fragment := "" }

/-- The same video id in youtu.be short form with a tracking parameter. -/
def shortUrlTracked : PyUrl :=
  { scheme := "https", netloc := "youtu.be", path := "/abc123", params := ""
    query := [("si", "xyz")], fragment := "" }

/-- Store holding the one-url demo job. -/
def demoStore : Store := [("d1", demoJob)]

/-- A watch url with extra query parameters and a fragment. -/
def watchUrlLong : PyUrl :=
  { scheme := "https", netloc := "www.youtube.com", path := "/watch", params := ""
    query := [("v", "abc"), ("t", "5")], fragment := "frag" }

/-- The equivalent watch url, already clean. -/
def watchUrlClean : PyUrl :=
  { scheme := "https", netloc := "www.youtube.com", path := "/watch", params := ""
    query := [("v", "abc")], fragment := "" }

/-- A url on an unrelated host. -/
def otherHostUrl : PyUrl :=
  { scheme := "https", netloc := "example.com", path := "/watch", params := ""
    query := [("v", "abc"), ("t", "5")], fragment := "frag" }

/-- A well-formed progress dict: 1 of 4 bytes downloaded. -/
def percentEventDemo : ProgressData :=
  { status := "downloading", total_bytes := some 4, downloaded_bytes := some 1 }

/-! ## Helper lemmas -/

/-- `qMul` agrees with the library multiplication. -/
theorem qMul_eq (a b : ℚ) : qMul a b = a * b := by
  rw [qMul, Rat.divInt_eq_div]
  push_cast
  rw [← div_mul_div_comm, Rat.num_div_den, Rat.num_div_den]

/-- `qDiv` agrees with the library division. -/
theorem qDiv_eq (a b : ℚ) : qDiv a b = a / b := by
  rw [qDiv, Rat.divInt_eq_div]
  push_cast
  rw [← div_mul_div_comm, Rat.num_div_den, div_eq_mul_inv a b, Rat.inv_def', Rat.divInt_eq_div]
  push_cast
  rfl

/-- `ratFloor` agrees with the floor function. -/
theorem ratFloor_eq (q : ℚ) : ratFloor q = ⌊q⌋ := Rat.floor_def.symm

/-- Looking up a key right after inserting it yields the inserted job. -/
theorem storeGet_insert_self (s : Store) (job_id : String) (x : Job) :
    storeGet (storeInsert s job_id x) job_id = some x := by
  unfold storeGet storeInsert
  by_cases h : s.any (fun p => p.1 == job_id) = true
  · simp only [h, if_true]
    induction s with
    | nil => simp at h
    | cons p rest ih =>
      by_cases hp : (p.1 == job_id) = true
      · simp only [List.map_cons, hp, if_true]
        rw [List.find?_cons_of_pos _ (by simp)]
        rfl
      · simp only [List.any_cons, hp, Bool.false_or] at h
        simp only [List.map_cons, hp, if_false]
        rw [List.find?_cons_of_neg _ (by simp [hp])]
        exact ih h
  · rw [if_neg h, List.find?_append]
    have hnone : List.find? (fun p => p.1 == job_id) s = none := by
      rw [List.find?_eq_none]
      intro p hp
      simp only [Bool.not_eq_true]
      cases ht : (p.1 == job_id) with
      | false => rfl
      | true => exact absurd (List.any_eq_true.mpr ⟨p, hp, ht⟩) h
    rw [hnone]
    simp [List.find?]

/-- Every entry of an updated table is an old entry or carries the
inserted job. -/
theorem mem_storeInsert {s : Store} {job_id : String} {x : Job} {p : String × Job}
    (hp : p ∈ storeInsert s job_id x) : p ∈ s ∨ p.2 = x := by
  unfold storeInsert at hp
  by_cases h : s.any (fun q => q.1 == job_id) = true
  · rw [if_pos h] at hp
    rcases List.mem_map.mp hp with ⟨q, hq, hfq⟩
    by_cases hq1 : (q.1 == job_id) = true
    · right
      rw [← hfq, if_pos hq1]
    · left
      rw [← hfq, if_neg hq1]
      exact hq
  · rw [if_neg h] at hp
    rcases List.mem_append.mp hp with hp | hp
    · exact Or.inl hp
    · right
      rcases List.mem_singleton.mp hp with rfl
      rfl

/-- `modifyItem` never changes the list length. -/
theorem length_modifyItem (items : List Item) (k : ℕ) (f : Item → Item) :
    (modifyItem items k f).length = items.length := by
  unfold modifyItem
  cases h : items[k]? <;> simp

/-- A projection untouched by the per-item write is untouched by
`modifyItem`. -/
theorem map_modifyItem {β : Type} (g : Item → β) (f : Item → Item)
    (hf : ∀ it, g (f it) = g it) (items : List Item) :
    ∀ k, (modifyItem items k f).map g = items.map g := by
  induction items with
  | nil => intro k; rfl
  | cons it rest ih =>
    intro k
    cases k with
    | zero => simp [modifyItem, hf]
    | succ k =>
      unfold modifyItem
      cases h : rest[k]? with
      | none => simp [h]
      | some x =>
        simp only [List.getElem?_cons_succ, h, List.set_cons_succ, List.map_cons]
        have hr := ih k
        unfold modifyItem at hr
        rw [h] at hr
        rw [hr]

/-! ## Claim theorems -/

/-- C1, counterexample: in the two-url scenario (A succeeds producing
`/d/A.mp3`, B fails with `boom`), the final state does have status error,
item statuses completed/error and B's message in `error` — but `files` is
empty: it does not contain the path produced for the first url, because
`_download_job` writes `files` only in its finished-status update
(app.py:120) and the error path (app.py:122) discards `download_media`'s
accumulated list. This falsifies the claim's `files=[pathForA]` part. -/
theorem C1_counterexample :
    twoUrlFinal.map Job.status = some "error" ∧
    twoUrlFinal.map (fun j => j.items.map Item.status) = some ["completed", "error"] ∧
    twoUrlFinal.map Job.error = some (some "boom") ∧
    twoUrlFinal.map (fun j => j.files.contains "/d/A.mp3") = some false ∧
    twoUrlFinal.map Job.files = some [] := by decide

/-- C1, amended: same scenario, with the `files` expectation corrected —
the job ends with `status=error`, `items[0]` completed at percent 100
(the produced file recorded only as the item's `filename` basename),
`items[1]` error, `error` = B's failure message, and `files` empty. -/
theorem C1_amended_theorem :
    twoUrlFinal =
      some { id := "job-ab", status := "error", format := "mp3", urls := ["A", "B"],
             items := [{ url := "A", status := "completed", percent := 100, filename := some "A.mp3" },
                       { url := "B", status := "error", percent := 0 }],
             files := [], error := some "boom",
             created_at := "T0Z", updated_at := "T1Z", created_ts := 1 } := by decide

/-- C2, counterexample: `_update_job` has no terminal-state guard — an
update naming `status`, `files` and `error` rewrites all three on a
`finished` job. -/
theorem C2_counterexample :
    finishedJob.status = "finished" ∧
    storeGet (update_job [("f1", finishedJob)] "f1"
        { status := some "queued", files := some [], error := some (some "gone") } "T9") "f1" =
      some { finishedJob with
             status := "queued"
             files := []
             error := some "gone"
             updated_at := "T9Z" } := by decide

/-- C2, amended: the store never enforces terminal immutability; a
terminal job's `status`, `files` and `error` survive an `UpdateJob` call
exactly when the call does not name those fields (only `updated_at` is
refreshed). -/
theorem C2_amended_theorem (s : Store) (job_id : String) (j : Job) (u : Updates)
    (now_iso : String)
    (hget : storeGet s job_id = some j)
    (_hterm : j.status = "finished" ∨ j.status = "error")
    (hs : u.status = none) (hf : u.files = none) (he : u.error = none) :
    storeGet (update_job s job_id u now_iso) job_id =
      some { j with updated_at := now_iso ++ "Z" } := by
  unfold update_job
  rw [hget, storeGet_insert_self]
  unfold applyUpdates
  rw [hs, hf, he]
  rfl

/-- C2, witness: the amended theorem applied to the finished demo job and
an update that names no field. -/
theorem C2_witness :
    storeGet (update_job [("f1", finishedJob)] "f1" ⟨none, none, none⟩ "T9") "f1" =
      some { finishedJob with updated_at := "T9Z" } :=
  C2_amended_theorem _ _ _ _ _ (by decide) (Or.inl (by decide)) rfl rfl rfl

/-- C3, counterexample: `api_status` reads the job's fields after releasing
the lock (app.py:190-204), so a monotone read schedule that straddles one
concurrent `_update_job` (here: first five fields before, last three after
the update to error) produces a response matching no single store state —
refuting the claim that every read reflects the store at one point. -/
theorem C3_counterexample :
    (List.finRange 8).map tornSched = [0, 0, 0, 0, 0, 1, 1, 1] ∧
    api_status_read tornTrace tornSched ≠ statusResponseOf runningJob ∧
    api_status_read tornTrace tornSched ≠ statusResponseOf erroredJob := by decide

/-- C3, amended: a status read with no interleaved update (a constant read
schedule) returns exactly the snapshot of the job at that point; torn
responses require a concurrent update. -/
theorem C3_amended_theorem (trace : ℕ → Job) (c : ℕ) :
    api_status_read trace (fun _ => c) = statusResponseOf (trace c) := rfl

/-- C4, counterexample: a progress dict whose `total_bytes_estimate` (2)
undershoots `downloaded_bytes` (3) makes `_percent_from_progress` return
150, and the hook records 150 on the item — outside [0,100], refuting the
claim's bound. -/
theorem C4_counterexample :
    (progressWrapper percentStore "p1" 0 overshootEvent).map
        (fun s => (storeGet s "p1").map (fun j => j.items.map Item.percent)) =
      Except.ok (some [150]) ∧ ¬((150 : ℚ) ≤ 100) := by decide

/-- C9, counterexample: two youtu.be short links to the same video id
(path `/abc123`), one carrying an extra tracking parameter, both pass
through `_normalize_url` unchanged (no `v` query key) and hence dispatch
differently — equivalent inputs are not normalized to a common form. -/
theorem C9_counterexample :
    isYoutubeNetloc shortUrlBare.netloc = true ∧
    shortUrlBare.path = shortUrlTracked.path ∧
    normalize_url shortUrlBare = shortUrlBare ∧
    normalize_url shortUrlTracked = shortUrlTracked ∧
    normalize_url shortUrlBare ≠ normalize_url shortUrlTracked := by decide

/-- C9, amended: normalization canonicalizes exactly the youtube-host urls
carrying a truthy `v` query parameter: two such urls agreeing on scheme,
netloc, path and first `v` value normalize identically whatever their
other query parameters or fragment; urls of other hosts always pass
through unchanged (and so do youtube-shaped urls without a `v` key, per
the counterexample). -/
theorem C9_amended_theorem (u1 u2 : PyUrl) (v : String)
    (hnet : isYoutubeNetloc u1.netloc = true)
    (hs : u2.scheme = u1.scheme) (hn : u2.netloc = u1.netloc) (hp : u2.path = u1.path)
    (hv1 : firstQueryValue u1.query "v" = some v)
    (hv2 : firstQueryValue u2.query "v" = some v) :
    normalize_url u1 = normalize_url u2 ∧
    ∀ w : PyUrl, isYoutubeNetloc w.netloc = false → normalize_url w = w := by
  constructor
  · unfold normalize_url
    rw [hn, hnet, hv1, hv2, hs, hp]
    simp
  · intro w hw
    unfold normalize_url
    rw [hw]
    simp

/-- C9, witness: the amended theorem applied to a watch url with extra
parameters and fragment against its clean form, and to a non-youtube
host url. -/
theorem C9_witness :
    normalize_url watchUrlLong = normalize_url watchUrlClean ∧
    normalize_url otherHostUrl = otherHostUrl :=
  ⟨(C9_amended_theorem watchUrlLong watchUrlClean "abc" (by decide) rfl rfl rfl
      (by decide) (by decide)).1,
   (C9_amended_theorem watchUrlLong watchUrlClean "abc" (by decide) rfl rfl rfl
      (by decide) (by decide)).2 otherHostUrl (by decide)⟩

/-- `writeInfo` resolves an in-range index once and performs both writes
there. -/
theorem writeInfo_in_range (items : List Item) (idx : ℤ) (i : HookInfo) (k : ℕ)
    (hk : pyIndex items.length idx = some k) :
    writeInfo items idx i = Except.ok (infoWrites items k i) := by
  unfold writeInfo infoWrites
  cases hf : i.filename with
  | none =>
    cases hp : i.percent with
    | none => simp
    | some pc => simp [hk]
  | some fn =>
    cases hp : i.percent with
    | none => simp [hk]
    | some pc =>
      have h2 : pyIndex (modifyItem items k
          (fun it => { it with filename := some (pathName fn) })).length idx = some k := by
        rw [length_modifyItem]
        exact hk
      simp [hk, h2]

/-- `writeInfo` raises IndexError as soon as a filename or percent write
meets an unresolvable index. -/
theorem writeInfo_out_of_range (items : List Item) (idx : ℤ) (i : HookInfo)
    (hk : pyIndex items.length idx = none)
    (hinfo : i.filename.isSome ∨ i.percent.isSome) :
    writeInfo items idx i = Except.error "IndexError" := by
  unfold writeInfo
  cases hf : i.filename with
  | none =>
    cases hp : i.percent with
    | none =>
      rw [hf] at hinfo
      rw [hp] at hinfo
      simp at hinfo
    | some pc => simp [hk]
  | some fn => simp [hk]

/-- C10: the bounds check of `progress_hook` guards only the status write.
When the info dict carries a filename or percent: an index at or past the
end raises IndexError (no silent no-op), and a negative in-range index
resolves to `length + index` — the writes land on an item counted from the
end while the guarded status write is skipped (`infoWrites` touches no
status). -/
theorem C10_theorem (s : Store) (job_id : String) (j : Job) (idx : ℤ) (st : String)
    (i : HookInfo) (hget : storeGet s job_id = some j) :
    ((j.items.length : ℤ) ≤ idx → (i.filename.isSome ∨ i.percent.isSome) →
      progress_hook s job_id idx st (some i) = Except.error "IndexError") ∧
    (-(j.items.length : ℤ) ≤ idx → idx < 0 → (i.filename.isSome ∨ i.percent.isSome) →
      progress_hook s job_id idx st (some i) =
        Except.ok (storeInsert s job_id
          { j with items := infoWrites j.items ((j.items.length : ℤ) + idx).toNat i })) := by
  have htruthy : (i.filename.isSome ∨ i.percent.isSome) →
      hookInfoTruthy (some i) = true := by
    intro hinfo
    rcases hinfo with h | h <;> simp [hookInfoTruthy, h]
  constructor
  · intro hge hinfo
    have hguard : ¬(0 ≤ idx ∧ idx < (j.items.length : ℤ)) := by omega
    have hpy : pyIndex j.items.length idx = none := by
      unfold pyIndex
      rw [if_neg hguard, if_neg (by omega)]
    unfold progress_hook
    rw [hget]
    simp only [if_neg hguard, htruthy hinfo, if_true,
      writeInfo_out_of_range _ _ _ hpy hinfo]
  · intro hlo hneg hinfo
    have hguard : ¬(0 ≤ idx ∧ idx < (j.items.length : ℤ)) := by omega
    have hpy : pyIndex j.items.length idx = some ((j.items.length : ℤ) + idx).toNat := by
      unfold pyIndex
      rw [if_neg hguard, if_pos (by omega)]
    unfold progress_hook
    rw [hget]
    simp only [if_neg hguard, htruthy hinfo, if_true,
      writeInfo_in_range _ _ _ _ hpy]

/-- C10, witness: on the one-item demo job, index 5 with a percent info
raises IndexError; index -1 writes the percent onto item 0. -/
theorem C10_witness :
    progress_hook demoStore "d1" 5 "downloading" (some { percent := some 75 }) =
      Except.error "IndexError" ∧
    progress_hook demoStore "d1" (-1) "downloading" (some { percent := some 75 }) =
      Except.ok (storeInsert demoStore "d1"
        { demoJob with items := infoWrites demoJob.items 0 { percent := some 75 } }) := by
  constructor
  · exact (C10_theorem demoStore "d1" demoJob 5 "downloading" { percent := some 75 }
      (by decide)).1 (by decide) (Or.inr (by decide))
  · exact (C10_theorem demoStore "d1" demoJob (-1) "downloading" { percent := some 75 }
      (by decide)).2 (by decide) (by decide) (Or.inr (by decide))

/-- C7: for every limit and store state, `api_recent` returns at most
`limit` entries, pairwise sorted by `created_at` descending, and every
entry is the summary projection (id, status, format, created_at, url
count) of some stored job — no item detail. -/
theorem C7_theorem (s : Store) (n : ℕ) :
    (api_recent s n).length ≤ n ∧
    (api_recent s n).Pairwise (fun a b => b.created_at ≤ a.created_at) ∧
    ∀ e ∈ api_recent s n, ∃ p ∈ s, e = recentEntryOf p.2 := by
  refine ⟨?_, ?_, ?_⟩
  · unfold api_recent
    simp
  · unfold api_recent
    refine List.Pairwise.map recentEntryOf (fun a b hr => hr) ?_
    exact List.Pairwise.sublist (List.take_sublist n _)
      (List.sorted_insertionSort recentBefore (s.map Prod.snd))
  · intro e he
    unfold api_recent at he
    rcases List.mem_map.mp he with ⟨j, hj, rfl⟩
    have hj2 : j ∈ (s.map Prod.snd).insertionSort recentBefore :=
      (List.take_sublist n _).mem hj
    have hj3 : j ∈ s.map Prod.snd := (List.mem_insertionSort recentBefore).mp hj2
    rcases List.mem_map.mp hj3 with ⟨p, hp, rfl⟩
    exact ⟨p, hp, rfl⟩

/-- `try/except OSError: pass` always returns normally. -/
theorem swallow_ok (r : Except String Unit) : swallow r = Except.ok () := by
  cases r <;> rfl

/-- One child unlink attempt always records its operation and advances,
whatever the oracle says. -/
theorem childStep_eq (oracle : List Bool) (job_id : String) (acc : List FsOp × ℕ)
    (child : String) :
    childStep oracle job_id acc child =
      (acc.1 ++ [FsOp.unlinkChild job_id child], acc.2 + 1) := by
  unfold childStep
  rw [swallow_ok]

/-- The child-unlink loop attempts every child in order. -/
theorem childFold (oracle : List Bool) (job_id : String) (children : List String) :
    ∀ acc : List FsOp × ℕ,
      children.foldl (childStep oracle job_id) acc =
        (acc.1 ++ children.map (FsOp.unlinkChild job_id), acc.2 + children.length) := by
  induction children with
  | nil => intro acc; simp
  | cons c rest ih =>
    intro acc
    rw [List.foldl_cons, childStep_eq, ih]
    simp [List.append_assoc]
    omega

/-- One evicted job's deletion always returns normally with the expected
operation order. -/
theorem deleteJobArtifacts_spec (oracle : List Bool) (a : JobArtifacts) (n : ℕ) :
    deleteJobArtifacts oracle a n = Except.ok (expectedOpsFor a, n + attemptCount a) := by
  unfold deleteJobArtifacts expectedOpsFor attemptCount
  cases hd : a.dirExists with
  | false =>
    cases hz : a.zipExists with
    | false => simp
    | true => simp [swallow_ok]
  | true =>
    cases hz : a.zipExists with
    | false =>
      simp [childFold, swallow_ok, List.append_assoc]
      omega
    | true =>
      simp [childFold, swallow_ok, List.append_assoc]
      omega

/-- C8: whatever the filesystem oracle makes each deletion attempt do, the
sweep's deletion phase returns normally (every OSError is swallowed, no
error surfaces, no abort) and attempts, for each evicted job in order:
all files of its output directory, then the directory, then its cached
archive — exactly `expectedOpsFor`, independent of any failures. -/
theorem C8_theorem (as : List JobArtifacts) (oracle : List Bool) (n : ℕ) :
    deleteArtifacts oracle as n =
      Except.ok ((as.map expectedOpsFor).flatten, n + (as.map attemptCount).sum) := by
  induction as generalizing n with
  | nil => simp [deleteArtifacts]
  | cons a rest ih =>
    unfold deleteArtifacts
    rw [deleteJobArtifacts_spec]
    simp only [ih]
    simp [List.append_assoc]
    omega

/-- Restricting `find?` by a `keep` conjunct still finds the first match
when that match is kept. -/
theorem find?_and_keep {α : Type} (pred keep : α → Bool) (l : List α) (q : α)
    (hf : l.find? pred = some q) (hk : keep q = true) :
    l.find? (fun p => decide (keep p = true ∧ pred p = true)) = some q := by
  induction l with
  | nil => simp at hf
  | cons a rest ih =>
    by_cases ha : pred a = true
    · rw [List.find?_cons_of_pos _ ha] at hf
      injection hf with hf
      subst hf
      rw [List.find?_cons_of_pos]
      simp [ha, hk]
    · rw [List.find?_cons_of_neg _ ha] at hf
      rw [List.find?_cons_of_neg]
      · exact ih hf
      · simp [ha]

/-- Restricting `find?` by a `keep` conjunct finds nothing when every
match is dropped. -/
theorem find?_and_none {α : Type} (pred keep : α → Bool) (l : List α)
    (h : ∀ p ∈ l, pred p = true → keep p = false) :
    l.find? (fun p => decide (keep p = true ∧ pred p = true)) = none := by
  rw [List.find?_eq_none]
  intro p hp
  simp only [decide_eq_true_eq, not_and]
  intro hkeep hpred
  rw [h p hp hpred] at hkeep
  cases hkeep

/-- C6: after the sweep's scan at cutoff `now − TTL`, a stored job with a
real (positive) creation timestamp is gone from the table when it predates
the cutoff, and still present, unchanged, when it does not. Key uniqueness
(which `_new_job`'s dict insertion maintains) is the `hnodup` hypothesis. -/
theorem C6_theorem (s : Store) (cutoff_ts : ℚ) (job_id : String) (j : Job)
    (hnodup : (s.map Prod.fst).Nodup)
    (hget : storeGet s job_id = some j) (hpos : 0 < j.created_ts) :
    (j.created_ts < cutoff_ts →
        storeGet (cleanup_old_jobs_store s cutoff_ts).1 job_id = none) ∧
    (¬ j.created_ts < cutoff_ts →
        storeGet (cleanup_old_jobs_store s cutoff_ts).1 job_id = some j) := by
  have hclean : (cleanup_old_jobs_store s cutoff_ts).1 =
      s.filter (fun p =>
        !(pyTruthy (some p.2.created_ts) && decide (p.2.created_ts < cutoff_ts))) := rfl
  unfold storeGet at hget ⊢
  rcases Option.map_eq_some'.mp hget with ⟨q, hq, hq2⟩
  have hqmem : q ∈ s := List.mem_of_find?_eq_some hq
  have hqpred := List.find?_some hq
  constructor
  · intro hold
    rw [hclean, List.find?_filter, find?_and_none]
    · rfl
    · intro p hp hpred
      have hpq : p = q := by
        apply List.inj_on_of_nodup_map hnodup hp hqmem
        have h1 : p.1 = job_id := by simpa using hpred
        have h2 : q.1 = job_id := by simpa using hqpred
        rw [h1, h2]
      subst hpq
      have htr : pyTruthy (some j.created_ts) = true := by
        simp only [pyTruthy, bne_iff_ne, ne_eq, decide_eq_true_eq]
        intro h0
        rw [h0] at hpos
        exact absurd hpos (lt_irrefl 0)
      simp [hq2, htr, hold]
  · intro hfresh
    rw [hclean, List.find?_filter, find?_and_keep _ _ _ _ hq]
    · simp [hq2]
    · simp [hq2, hfresh]

/-- C6, witness: the finished demo job (created at timestamp 1) is evicted
by a sweep with cutoff 5 and survives, unchanged, a sweep with cutoff 1. -/
theorem C6_witness :
    storeGet (cleanup_old_jobs_store [("f1", finishedJob)] 5).1 "f1" = none ∧
    storeGet (cleanup_old_jobs_store [("f1", finishedJob)] 1).1 "f1" = some finishedJob :=
  ⟨(C6_theorem [("f1", finishedJob)] 5 "f1" finishedJob (by decide) (by decide)
      (by decide)).1 (by decide),
   (C6_theorem [("f1", finishedJob)] 1 "f1" finishedJob (by decide) (by decide)
      (by decide)).2 (by decide)⟩

/-- A successful lookup returns the payload of some table entry. -/
theorem storeGet_mem {s : Store} {job_id : String} {j : Job}
    (h : storeGet s job_id = some j) : ∃ p ∈ s, p.2 = j := by
  unfold storeGet at h
  rcases Option.map_eq_some'.mp h with ⟨q, hq, hq2⟩
  exact ⟨q, List.mem_of_find?_eq_some hq, hq2⟩

/-- `_update_job` never touches `items` or `urls`. -/
theorem applyUpdates_wf (j : Job) (u : Updates) (now_iso : String) (h : JobWF j) :
    JobWF (applyUpdates j u now_iso) := h

/-- A freshly built job has one item per url, in order. -/
theorem mkJob_wf (job_id : String) (urls : List String) (fmt now_iso : String)
    (now_ts : ℚ) : JobWF (mkJob job_id urls fmt now_iso now_ts) := by
  show (urls.map fun url =>
      ({ url := url, status := "queued", percent := 0, filename := none } : Item)).map
        Item.url = urls
  rw [List.map_map]
  exact List.map_id urls

/-- The hook's filename/percent writes never change any item's url. -/
theorem writeInfo_map_url (items : List Item) (idx : ℤ) (i : HookInfo)
    (out : List Item) (h : writeInfo items idx i = Except.ok out) :
    out.map Item.url = items.map Item.url := by
  unfold writeInfo at h
  cases hf : i.filename with
  | none =>
    simp only [hf] at h
    cases hp : i.percent with
    | none =>
      simp only [hp] at h
      injection h with h
      rw [← h]
    | some pc =>
      simp only [hp] at h
      cases hk : pyIndex items.length idx with
      | none => simp [hk] at h
      | some k =>
        simp only [hk] at h
        injection h with h
        rw [← h]
        exact map_modifyItem Item.url (fun it => { it with percent := pc })
          (fun _ => rfl) items k
  | some fn =>
    simp only [hf] at h
    cases hk : pyIndex items.length idx with
    | none => simp [hk] at h
    | some k =>
      simp only [hk] at h
      cases hp : i.percent with
      | none =>
        simp only [hp] at h
        injection h with h
        rw [← h]
        exact map_modifyItem Item.url (fun it => { it with filename := some (pathName fn) })
          (fun _ => rfl) items k
      | some pc =>
        simp only [hp] at h
        cases hk2 : pyIndex (modifyItem items k
            (fun it => { it with filename := some (pathName fn) })).length idx with
        | none => simp [hk2] at h
        | some k2 =>
          simp only [hk2] at h
          injection h with h
          rw [← h]
          rw [map_modifyItem Item.url (fun it => { it with percent := pc }) (fun _ => rfl) _ k2,
            map_modifyItem Item.url (fun it => { it with filename := some (pathName fn) })
              (fun _ => rfl) items k]

/-- A progress callback that returns normally either left the table alone
or rewrote one job's items without touching any url. -/
theorem progress_hook_ok_shape (s s1 : Store) (job_id : String) (idx : ℤ)
    (st : String) (info : Option HookInfo)
    (h : progress_hook s job_id idx st info = Except.ok s1) :
    s1 = s ∨ ∃ job items2, storeGet s job_id = some job ∧
      items2.map Item.url = job.items.map Item.url ∧
      s1 = storeInsert s job_id { job with items := items2 } := by
  unfold progress_hook at h
  cases hget : storeGet s job_id with
  | none =>
    rw [hget] at h
    injection h with h
    exact Or.inl h.symm
  | some job =>
    rw [hget] at h
    dsimp only at h
    set items1 := (if 0 ≤ idx ∧ idx < (job.items.length : ℤ) then
        modifyItem job.items idx.toNat (fun it => { it with status := st })
      else job.items) with hitems1def
    have hmap1 : items1.map Item.url = job.items.map Item.url := by
      rw [hitems1def]
      split
      · exact map_modifyItem Item.url (fun it => { it with status := st })
          (fun _ => rfl) job.items idx.toNat
      · rfl
    by_cases ht : hookInfoTruthy info = true
    · rw [if_pos ht] at h
      cases info with
      | none =>
        dsimp only at h
        injection h with h2
        exact Or.inr ⟨job, items1, rfl, hmap1, h2.symm⟩
      | some i =>
        dsimp only at h
        cases hw : writeInfo items1 idx i with
        | error e =>
          rw [hw] at h
          cases h
        | ok items2 =>
          rw [hw] at h
          injection h with h2
          refine Or.inr ⟨job, items2, rfl, ?_, h2.symm⟩
          rw [writeInfo_map_url _ _ _ _ hw, hmap1]
    · rw [if_neg ht] at h
      injection h with h2
      exact Or.inr ⟨job, items1, rfl, hmap1, h2.symm⟩

/-- Every store operation the program performs preserves the items/urls
correspondence of every job. -/
theorem stepOp_wf (s : Store) (op : StoreOp) (hwf : StoreWF s) : StoreWF (stepOp s op) := by
  cases op with
  | create job_id urls fmt now_iso now_ts =>
    intro p hp
    rcases mem_storeInsert hp with hmem | hnew
    · exact hwf p hmem
    · rw [hnew]
      exact mkJob_wf job_id urls fmt now_iso now_ts
  | update job_id u now_iso =>
    show StoreWF (update_job s job_id u now_iso)
    unfold update_job
    cases hget : storeGet s job_id with
    | none => exact hwf
    | some job =>
      intro p hp
      rcases mem_storeInsert hp with hmem | hnew
      · exact hwf p hmem
      · rw [hnew]
        apply applyUpdates_wf
        rcases storeGet_mem hget with ⟨q, hq, hq2⟩
        rw [← hq2]
        exact hwf q hq
  | progress job_id idx st info =>
    show StoreWF (match progress_hook s job_id idx st info with
      | Except.ok s1 => s1
      | Except.error _ => s)
    cases hr : progress_hook s job_id idx st info with
    | error e => exact hwf
    | ok s1 =>
      rcases progress_hook_ok_shape s s1 job_id idx st info hr with
        hsame | ⟨job, items2, hget, hmap, hins⟩
      · rw [hsame]
        exact hwf
      · rw [hins]
        intro p hp
        rcases mem_storeInsert hp with hmem | hnew
        · exact hwf p hmem
        · rw [hnew]
          rcases storeGet_mem hget with ⟨q, hq, hq2⟩
          have hjwf : JobWF job := by
            rw [← hq2]
            exact hwf q hq
          show items2.map Item.url = job.urls
          rw [hmap]
          exact hjwf
  | sweep cutoff_ts =>
    intro p hp
    have hclean : stepOp s (StoreOp.sweep cutoff_ts) =
        s.filter (fun p =>
          !(pyTruthy (some p.2.created_ts) && decide (p.2.created_ts < cutoff_ts))) := rfl
    rw [hclean] at hp
    exact hwf p (List.mem_of_mem_filter hp)

/-- Invariant preservation over any history of store operations. -/
theorem runOps_wf : ∀ (ops : List StoreOp) (s : Store), StoreWF s → StoreWF (runOps s ops)
  | [], _, h => h
  | op :: rest, s, h => runOps_wf rest (stepOp s op) (stepOp_wf s op h)

/-- C5, counterexample: the id comes from `uuid4().hex` without consulting
the store — when the drawn id is already present, `_new_job` silently
overwrites the existing job instead of allocating an id not already in
the store. -/
theorem C5_counterexample :
    storeGet [("f1", finishedJob)] "f1" = some finishedJob ∧
    (new_job [("f1", finishedJob)] "f1" ["x"] "mp4" "T5" 9).2 = "f1" ∧
    storeGet (new_job [("f1", finishedJob)] "f1" ["x"] "mp4" "T5" 9).1 "f1" ≠
      some finishedJob := by decide

/-- C5, amended: provided the drawn id is not already present (freshness is
an assumption on the random id, not a guarantee of the code), the inserted
job has status queued, empty files, no error, and one queued item per url
with percent 0, in url order; and under every subsequent history of store
operations every job keeps its items/urls length-and-order correspondence. -/
theorem C5_amended_theorem (s : Store) (job_id : String) (urls : List String)
    (fmt now_iso : String) (now_ts : ℚ)
    (_hfresh : storeGet s job_id = none) (hwf : StoreWF s) :
    storeGet (new_job s job_id urls fmt now_iso now_ts).1 job_id =
      some (mkJob job_id urls fmt now_iso now_ts) ∧
    (mkJob job_id urls fmt now_iso now_ts).status = "queued" ∧
    (mkJob job_id urls fmt now_iso now_ts).files = [] ∧
    (mkJob job_id urls fmt now_iso now_ts).error = none ∧
    (mkJob job_id urls fmt now_iso now_ts).items.map Item.url = urls ∧
    (mkJob job_id urls fmt now_iso now_ts).items.map Item.status =
      urls.map (fun _ => "queued") ∧
    (mkJob job_id urls fmt now_iso now_ts).items.map Item.percent =
      urls.map (fun _ => (0 : ℚ)) ∧
    ∀ ops : List StoreOp,
      StoreWF (runOps (new_job s job_id urls fmt now_iso now_ts).1 ops) := by
  refine ⟨storeGet_insert_self s job_id _, rfl, rfl, rfl,
    mkJob_wf job_id urls fmt now_iso now_ts, ?_, ?_, ?_⟩
  · show (urls.map fun url =>
        ({ url := url, status := "queued", percent := 0, filename := none } : Item)).map
          Item.status = urls.map fun _ => "queued"
    rw [List.map_map]
    rfl
  · show (urls.map fun url =>
        ({ url := url, status := "queued", percent := 0, filename := none } : Item)).map
          Item.percent = urls.map fun _ => (0 : ℚ)
    rw [List.map_map]
    rfl
  · intro ops
    apply runOps_wf
    intro p hp
    rcases mem_storeInsert hp with hmem | hnew
    · exact hwf p hmem
    · rw [hnew]
      exact mkJob_wf job_id urls fmt now_iso now_ts

/-- C5, witness: the amended theorem on an empty store with two urls,
running an update and a progress callback afterwards. -/
theorem C5_witness :
    storeGet (new_job [] "w1" ["A", "B"] "mp3" "T0" 1).1 "w1" =
      some (mkJob "w1" ["A", "B"] "mp3" "T0" 1) ∧
    (mkJob "w1" ["A", "B"] "mp3" "T0" 1).status = "queued" ∧
    (mkJob "w1" ["A", "B"] "mp3" "T0" 1).files = [] ∧
    (mkJob "w1" ["A", "B"] "mp3" "T0" 1).error = none ∧
    (mkJob "w1" ["A", "B"] "mp3" "T0" 1).items.map Item.url = ["A", "B"] ∧
    StoreWF (runOps (new_job [] "w1" ["A", "B"] "mp3" "T0" 1).1
      [StoreOp.update "w1" ⟨some "running", none, none⟩ "T1",
       StoreOp.progress "w1" 0 "downloading" (some { percent := some 50, extra := true })]) := by
  have h := C5_amended_theorem [] "w1" ["A", "B"] "mp3" "T0" 1 (by decide)
    (by intro p hp; cases hp)
  exact ⟨h.1, h.2.1, h.2.2.1, h.2.2.2.1, h.2.2.2.2.1,
    h.2.2.2.2.2.2.2 [StoreOp.update "w1" ⟨some "running", none, none⟩ "T1",
      StoreOp.progress "w1" 0 "downloading" (some { percent := some 50, extra := true })]⟩

/-- `pyRound2` is round-half-even at two decimals: the integer-level
comparisons of the executable definition coincide with the fractional-part
comparisons of `roundHE`. -/
theorem pyRound2_eq_roundHE (q : ℚ) :
    pyRound2 q = ((roundHE (q * 100) : ℤ) : ℚ) / 100 := by
  unfold pyRound2
  dsimp only
  rw [qMul_eq, ratFloor_eq, Rat.divInt_eq_div]
  set s := q * 100 with hs
  have hdenQ : ((s.den : ℚ)) ≠ 0 := Nat.cast_ne_zero.mpr s.den_nz
  have hdenQpos : (0:ℚ) < (s.den : ℚ) := by
    exact_mod_cast Nat.pos_of_ne_zero s.den_nz
  set rn : ℤ := s.num - ⌊s⌋ * (s.den : ℤ) with hrn
  have hfr : Int.fract s = (rn : ℚ) / (s.den : ℚ) := by
    rw [← Int.self_sub_floor, hrn]
    push_cast
    rw [sub_div, Rat.num_div_den, mul_div_assoc, div_self hdenQ, mul_one]
  have hlt : (2 * rn < (s.den : ℤ)) ↔ Int.fract s < 1/2 := by
    rw [hfr, div_lt_iff₀ hdenQpos]
    constructor
    · intro h
      have h2 : ((2 * rn : ℤ) : ℚ) < ((s.den : ℤ) : ℚ) := by exact_mod_cast h
      push_cast at h2
      linarith
    · intro h
      have h2 : ((2 * rn : ℤ) : ℚ) < ((s.den : ℤ) : ℚ) := by
        push_cast
        linarith
      exact_mod_cast h2
  have hgt : ((s.den : ℤ) < 2 * rn) ↔ 1/2 < Int.fract s := by
    rw [hfr, lt_div_iff₀ hdenQpos]
    constructor
    · intro h
      have h2 : (((s.den : ℤ)) : ℚ) < ((2 * rn : ℤ) : ℚ) := by exact_mod_cast h
      push_cast at h2
      linarith
    · intro h
      have h2 : (((s.den : ℤ)) : ℚ) < ((2 * rn : ℤ) : ℚ) := by
        push_cast
        linarith
      exact_mod_cast h2
  unfold roundHE
  simp only [← hlt, ← hgt]
  norm_num

/-- Rounding a nonnegative value stays nonnegative. -/
theorem roundHE_nonneg (s : ℚ) (h : 0 ≤ s) : 0 ≤ roundHE s := by
  unfold roundHE
  have h0 : 0 ≤ ⌊s⌋ := Int.floor_nonneg.mpr h
  split_ifs <;> omega

/-- Rounding never overshoots an integer upper bound. -/
theorem roundHE_le (s : ℚ) (m : ℤ) (h : s ≤ (m : ℚ)) : roundHE s ≤ m := by
  unfold roundHE
  have h1 : ⌊s⌋ ≤ m := by
    have := Int.floor_le_floor h
    rwa [Int.floor_intCast] at this
  have key : 0 < Int.fract s → ⌊s⌋ + 1 ≤ m := by
    intro hfr
    have h2 : ((⌊s⌋ : ℤ) : ℚ) < s := by
      rw [← Int.self_sub_floor] at hfr
      linarith
    have h3 : ((⌊s⌋ : ℤ) : ℚ) < (m : ℚ) := lt_of_lt_of_le h2 h
    have h4 : ⌊s⌋ < m := by exact_mod_cast h3
    omega
  split_ifs with c1 c2 c3
  · exact h1
  · exact key (by linarith)
  · exact h1
  · push_neg at c1 c2
    exact key (by linarith)

/-- Round half to even is monotone. -/
theorem roundHE_mono {s1 s2 : ℚ} (h : s1 ≤ s2) : roundHE s1 ≤ roundHE s2 := by
  unfold roundHE
  have hf : ⌊s1⌋ ≤ ⌊s2⌋ := Int.floor_le_floor h
  by_cases heq : ⌊s1⌋ = ⌊s2⌋
  · have hfr : Int.fract s1 ≤ Int.fract s2 := by
      rw [← Int.self_sub_floor, ← Int.self_sub_floor, heq]
      linarith
    split_ifs <;> first | omega | linarith
  · have hlt : ⌊s1⌋ + 1 ≤ ⌊s2⌋ := by omega
    split_ifs <;> omega

/-- `round(x, 2)` of a nonnegative value is nonnegative. -/
theorem pyRound2_nonneg (x : ℚ) (h0 : 0 ≤ x) : 0 ≤ pyRound2 x := by
  rw [pyRound2_eq_roundHE]
  apply div_nonneg _ (by norm_num)
  exact_mod_cast roundHE_nonneg (x * 100) (by nlinarith)

/-- `round(x, 2)` of a value at most 100 is at most 100. -/
theorem pyRound2_le_100 (x : ℚ) (h100 : x ≤ 100) : pyRound2 x ≤ 100 := by
  rw [pyRound2_eq_roundHE]
  rw [div_le_iff₀ (by norm_num)]
  have h1 : roundHE (x * 100) ≤ (10000 : ℤ) := by
    apply roundHE_le
    push_cast
    nlinarith
  have h2 : ((roundHE (x * 100) : ℤ) : ℚ) ≤ ((10000 : ℤ) : ℚ) := by exact_mod_cast h1
  push_cast at h2
  linarith

/-- `round(x, 2)` is monotone. -/
theorem pyRound2_mono {x y : ℚ} (h : x ≤ y) : pyRound2 x ≤ pyRound2 y := by
  rw [pyRound2_eq_roundHE, pyRound2_eq_roundHE]
  have h1 : roundHE (x * 100) ≤ roundHE (y * 100) := roundHE_mono (by linarith)
  have h2 : ((roundHE (x * 100) : ℤ) : ℚ) ≤ ((roundHE (y * 100) : ℤ) : ℚ) := by
    exact_mod_cast h1
  linarith

/-- C4, amended: when total and downloaded are both known and non-zero, the
recorded percent is exactly `round(downloaded/total × 100, 2)` (the claim's
formula, with no clamping); it lies in [0,100] provided the reported
`downloaded` does not exceed the `total` in use (which the counterexample
shows can fail for estimates); and for a fixed total it is non-decreasing
in the downloaded byte count, giving non-decreasing observations while an
item downloads. -/
theorem C4_amended_theorem (d : ProgressData) (t dl dl2 : ℚ)
    (ht : pyOr d.total_bytes d.total_bytes_estimate = some t)
    (hdl : d.downloaded_bytes = some dl)
    (h0 : 0 < dl) (hle : dl ≤ t) (h02 : dl ≤ dl2) (_hle2 : dl2 ≤ t) :
    percent_from_progress d = some (pyRound2 (dl / t * 100)) ∧
    0 ≤ pyRound2 (dl / t * 100) ∧
    pyRound2 (dl / t * 100) ≤ 100 ∧
    pyRound2 (dl / t * 100) ≤ pyRound2 (dl2 / t * 100) := by
  have htpos : 0 < t := lt_of_lt_of_le h0 hle
  have ht0 : t ≠ 0 := ne_of_gt htpos
  have hdl0 : dl ≠ 0 := ne_of_gt h0
  refine ⟨?_, ?_, ?_, ?_⟩
  · unfold percent_from_progress
    dsimp only
    rw [ht, hdl]
    have hcond : (pyTruthy (some t) && pyTruthy (some dl)) = true := by
      simp [pyTruthy, ht0, hdl0]
    simp only [hcond, if_true, Option.getD_some]
    rw [qDiv_eq, qMul_eq]
  · exact pyRound2_nonneg _ (by positivity)
  · apply pyRound2_le_100
    rw [div_mul_eq_mul_div, div_le_iff₀ htpos]
    nlinarith
  · apply pyRound2_mono
    have hdd : dl / t ≤ dl2 / t := by
      gcongr
    nlinarith [hdd]

/-- C4, witness: the amended theorem on a dict reporting 1 of 4 bytes,
against a later observation of 2 of 4 bytes. -/
theorem C4_witness :
    percent_from_progress percentEventDemo = some (pyRound2 (1 / 4 * 100)) ∧
    0 ≤ pyRound2 (1 / 4 * 100) ∧
    pyRound2 (1 / 4 * 100) ≤ 100 ∧
    pyRound2 (1 / 4 * 100) ≤ pyRound2 (2 / 4 * 100) :=
  C4_amended_theorem percentEventDemo 4 1 2 (by decide) (by decide) (by decide)
    (by decide) (by decide) (by decide)

end Snaptap
